import Mathlib

/-!
Verification development for the OCR sign-in-sheet processing repository.

Python strings are embedded as `List Char` (named `Str` below); pandas
DataFrames become Lean lists of structures; machine floats used only as
match scores become `ℚ`; exceptions become `Except`.  Each definition is a
direct translation of the corresponding Python function, named after it.
-/

set_option maxRecDepth 4000

namespace OCR

/-- Embedding of a Python `str` as a list of characters. -/
abbrev Str := List Char

/-- Python `str.upper()` (character-wise upper casing). -/
def toUpperS (s : Str) : Str := s.map Char.toUpper

/-- Python `str.lower()` (character-wise lower casing). -/
def toLowerS (s : Str) : Str := s.map Char.toLower

/-- Python `str.strip()`: remove leading and trailing whitespace. -/
def stripS (s : Str) : Str :=
  ((s.dropWhile Char.isWhitespace).reverse.dropWhile Char.isWhitespace).reverse

/-- Whether `s` starts with `pat` (used for substring search). -/
def startsWith : Str → Str → Bool
  | _, [] => true
  | [], _ :: _ => false
  | a :: s, b :: p => a == b && startsWith s p

/-- Python `pat in s`: substring containment. -/
def containsSub : Str → Str → Bool
  | s, pat =>
    match s with
    | [] => pat.isEmpty
    | _ :: rest => startsWith s pat || containsSub rest pat

/-- Python `text.split(sep)` for a single-character separator: keeps empty parts. -/
def splitOnChar (sep : Char) : Str → List Str
  | [] => [[]]
  | c :: rest =>
    if c = sep then [] :: splitOnChar sep rest
    else
      match splitOnChar sep rest with
      | l :: ls => (c :: l) :: ls
      | [] => [[c]]

/-- Accumulator pass for `splitWS`; `cur` holds the current token reversed. -/
def splitWSGo (cur : Str) : Str → List Str
  | [] => if cur.isEmpty then [] else [cur.reverse]
  | c :: rest =>
    if c.isWhitespace then
      if cur.isEmpty then splitWSGo [] rest else cur.reverse :: splitWSGo [] rest
    else splitWSGo (c :: cur) rest

/-- Python `str.split()` with no argument: split on whitespace runs, dropping empties. -/
def splitWS (s : Str) : List Str := splitWSGo [] s

/-- Lexicographic strict comparison of strings (Python `<` on `str`). -/
def lexLt : Str → Str → Bool
  | [], [] => false
  | [], _ :: _ => true
  | _ :: _, [] => false
  | a :: as, b :: bs => a < b || (a == b && lexLt as bs)

/-- Stable insertion used to embed Python `sorted`. -/
def insertLe (a : Str) : List Str → List Str
  | [] => [a]
  | b :: bs => if lexLt b a then b :: insertLe a bs else a :: b :: bs

/-- Python `sorted` on a list of strings (stable, lexicographic). -/
def sortedStr (l : List Str) : List Str := l.foldr insertLe []

/-- Join a list of tokens with single spaces (`" ".join(tokens)`). -/
def joinSpace : List Str → Str
  | [] => []
  | [t] => t
  | t :: ts => t ++ ' ' :: joinSpace ts

end OCR

namespace OCR

/-- One row of the longest-common-subsequence dynamic program.  `go` walks the
second string; `diag`/`left` hold `prev[j-1]` and `new[j-1]`. -/
def lcsRowGo (a : Char) : Str → List Nat → Nat → Nat → List Nat
  | [], _, _, _ => []
  | _ :: _, [], _, _ => []
  | b :: bs, p :: ps, diag, left =>
    let cur := if a == b then diag + 1 else max left p
    cur :: lcsRowGo a bs ps p cur

/-- Next row of the LCS table for character `a` against `bs`, given the previous row. -/
def lcsRow (a : Char) (bs : Str) (prev : List Nat) : List Nat :=
  0 :: lcsRowGo a bs (prev.drop 1) (prev.headD 0) 0

/-- Length of the longest common subsequence of two strings (dynamic programming). -/
def lcs (as bs : Str) : Nat :=
  (as.foldl (fun prev a => lcsRow a bs prev) (List.replicate (bs.length + 1) 0)).getLastD 0

/-- rapidfuzz `fuzz.ratio`: normalized InDel similarity,
`100 * (1 - dist / (|a| + |b|))` with `dist = |a| + |b| - 2 * LCS(a, b)`. -/
def ratioQ (a b : Str) : ℚ :=
  if a.length + b.length = 0 then 100
  else (200 * (lcs a b : ℚ)) / ((a.length : ℚ) + (b.length : ℚ))

/-- rapidfuzz token-sort preprocessing: split on whitespace, sort tokens, rejoin. -/
def tokenSort (s : Str) : Str := joinSpace (sortedStr (splitWS s))

/-- rapidfuzz `fuzz.token_sort_ratio`. -/
def token_sort_ratio (a b : Str) : ℚ := ratioQ (tokenSort a) (tokenSort b)

/-- rapidfuzz `process.extractOne(query, choices, scorer=fuzz.token_sort_ratio)`:
best-scoring choice, first one wins on ties; `none` only for an empty choice list. -/
def extractOne (query : Str) (choices : List Str) : Option (Str × ℚ) :=
  choices.foldl
    (fun acc c =>
      let sc := token_sort_ratio query c
      match acc with
      | none => some (c, sc)
      | some (_, best) => if sc > best then some (c, sc) else acc)
    none

/-- One row of the credential mapping table
(`PossibleNames, Credential, Classification, company_id`). -/
structure MappingRow where
  possibleNames : Str
  credential : Str
  classification : Str
  company_id : Int
deriving DecidableEq, Repr

/-- A mapping row together with the normalized columns `PossibleNames_Upper` and
`Credential_Upper` added by `_load_mapping`. -/
structure NormRow where
  row : MappingRow
  possibleNamesUpper : Str
  credentialUpper : Str
deriving DecidableEq, Repr

/-- Normalization performed by `_load_mapping`:
`.str.upper().str.strip()` on both matchable columns. -/
def normalizeRow (r : MappingRow) : NormRow :=
  ⟨r, stripS (toUpperS r.possibleNames), stripS (toUpperS r.credential)⟩

/-- `ClassificationService._load_mapping`: filter the full table to `company_id`
when one is given (`mapping_df = full[full['company_id'] == company_id]`),
otherwise keep all rows; then add the normalized columns. -/
def load_mapping (full : List MappingRow) (company_id : Option Int) : List NormRow :=
  match company_id with
  | some cid => (full.filter (fun r => r.company_id == cid)).map normalizeRow
  | none => full.map normalizeRow

/-- State of a `ClassificationService` relevant to classification: the scoped,
normalized mapping table and the two matching thresholds. -/
structure ClassificationService where
  mapping_df : List NormRow
  fuzzy_threshold : ℚ
  min_fuzzy_length : Nat
deriving DecidableEq, Repr

/-- `ClassificationService.__init__` (the Python defaults are
`fuzzy_threshold=80` and `min_fuzzy_length=5`, passed explicitly here), which
calls `_load_mapping` with the given company id. -/
def mkClassificationService (full : List MappingRow) (company_id : Option Int)
    (fuzzy_threshold : ℚ) (min_fuzzy_length : Nat) : ClassificationService :=
  ⟨load_mapping full company_id, fuzzy_threshold, min_fuzzy_length⟩

/-- The `match_method` component of a classification result; the Python code
returns f-strings such as `exact_possiblenames(company:1)`, embedded here as a
constructor carrying the company id. -/
inductive MatchMethod where
  | no_mapping_data
  | exact_possiblenames (company : Int)
  | exact_credential (company : Int)
  | fuzzy_possiblenames (company : Int)
  | no_match
  | field_employee_override
deriving DecidableEq, Repr

/-- The company id a match method reports, if any. -/
def MatchMethod.companyTag : MatchMethod → Option Int
  | .exact_possiblenames c => some c
  | .exact_credential c => some c
  | .fuzzy_possiblenames c => some c
  | _ => none

/-- Result tuple of `classify_credential`:
`(classification, standardized_credential, match_score, match_method)`. -/
structure ClassifyResult where
  classification : Str
  standardized : Str
  score : ℚ
  method : MatchMethod
deriving DecidableEq, Repr

/-- `ClassificationService._fuzzy_match_credential`: fuzzy match the uppercased
credential against the scoped `PossibleNames_Upper` column using
`process.extractOne(..., scorer=fuzz.token_sort_ratio)`; accept only at or above
`fuzzy_threshold`, returning fields of the first row carrying the best name. -/
def fuzzy_match_credential (svc : ClassificationService) (credential_upper : Str) :
    Option (Str × Str × ℚ × Int) :=
  if svc.mapping_df.isEmpty then none
  else
    match extractOne credential_upper (svc.mapping_df.map (·.possibleNamesUpper)) with
    | none => none
    | some (best_match, score) =>
      if svc.fuzzy_threshold ≤ score then
        match svc.mapping_df.find? (fun r => r.possibleNamesUpper == best_match) with
        | some matched_row =>
          some (matched_row.row.classification, matched_row.row.credential, score,
            matched_row.row.company_id)
        | none => none
      else none

/-- `ClassificationService.classify_credential`: tier 1 exact match on
`PossibleNames_Upper`, tier 2 exact match on `Credential_Upper`, tier 3 fuzzy
match gated on `min_fuzzy_length`, default `Non-HCP` with the raw string and
score 0. -/
def classify_credential (svc : ClassificationService) (credential_ocr : Str) :
    ClassifyResult :=
  let credential_upper := stripS (toUpperS credential_ocr)
  if svc.mapping_df.isEmpty then
    ⟨"Non-HCP".toList, credential_ocr, 0, .no_mapping_data⟩
  else
    match svc.mapping_df.find? (fun r => r.possibleNamesUpper == credential_upper) with
    | some m =>
      ⟨m.row.classification, m.row.credential, 100, .exact_possiblenames m.row.company_id⟩
    | none =>
      match svc.mapping_df.find? (fun r => r.credentialUpper == credential_upper) with
      | some m =>
        ⟨m.row.classification, m.row.credential, 100, .exact_credential m.row.company_id⟩
      | none =>
        if svc.min_fuzzy_length ≤ credential_upper.length then
          match fuzzy_match_credential svc credential_upper with
          | some res =>
            ⟨res.1, res.2.1, res.2.2.1, .fuzzy_possiblenames res.2.2.2⟩
          | none => ⟨"Non-HCP".toList, credential_ocr, 0, .no_match⟩
        else ⟨"Non-HCP".toList, credential_ocr, 0, .no_match⟩

/-- `ocr_text.split('\n')` as used by `parse_ocr_results`. -/
def splitLines (s : Str) : List Str := splitOnChar '\n' s

/-- Lazy-group scan for the regex `-\s*(.+?),\s*(.+)$` after the dash and the
greedy whitespace: find the least `i ≥ 1` with a comma at `i` and a non-empty
remainder after it; the backtracking engine extends the lazy group past a comma
whose remainder is empty.  `go` carries the group accumulated so far reversed. -/
def commaSplitGo (acc : Str) : Str → Option (Str × Str)
  | [] => none
  | c :: u => if c = ',' ∧ u ≠ [] then some (acc.reverse, u) else commaSplitGo (c :: acc) u

/-- Split `t` at the first viable comma at index at least 1 (the lazy group
must be non-empty), returning (group1, rest-after-comma). -/
def commaSplit : Str → Option (Str × Str)
  | [] => none
  | a :: rest => commaSplitGo [a] rest

/-- One line of `parse_ocr_results`: Python
`re.match(r'-\s*(.+?),\s*(.+)$', line.strip())`, returning the stripped
`(Name, Credential_OCR)` groups when the line matches.  The final `if` branch
is the backtracking corner where the greedy `\s*` gives back a whitespace
character so that the lazy group can match it before a leading comma. -/
def match_line (line : Str) : Option (Str × Str) :=
  let s := stripS line
  match s with
  | '-' :: rest =>
    let t := rest.dropWhile Char.isWhitespace
    match commaSplit t with
    | some (g1, u) => some (stripS g1, stripS (u.dropWhile Char.isWhitespace))
    | none =>
      if rest ≠ t ∧ t.head? = some ',' ∧ t.drop 1 ≠ [] then
        some ([], stripS ((t.drop 1).dropWhile Char.isWhitespace))
      else none
  | _ => none

/-- `ClassificationService.parse_ocr_results`: split on newlines, keep the
lines matching `- Name, Credential`, in order; non-matching lines are skipped. -/
def parse_ocr_results (ocr_text : Str) : List (Str × Str) :=
  (splitLines ocr_text).filterMap match_line

/-- Character class `[A-Za-z\s.]` of the field-employee name group. -/
def isNameChar (c : Char) : Bool := c.isAlpha || c.isWhitespace || c = '.'

/-- Lazy scan of the group `([A-Za-z][A-Za-z\s.]+?)` with terminator
`(?:\n|$|,)` (first field-employee pattern): with at least two characters
accumulated, stop at the first terminator; otherwise extend while the next
character is in the class, failing on anything else. -/
def scanNameP1 (acc : Str) : Str → Option Str
  | [] => if 2 ≤ acc.length then some acc.reverse else none
  | c :: rest =>
    if 2 ≤ acc.length ∧ (c = '\n' ∨ c = ',') then some acc.reverse
    else if isNameChar c then scanNameP1 (c :: acc) rest
    else none

/-- Lazy scan of the same group with terminator `(?:\s{2,}|$)` (second
field-employee pattern): stop at the end or before two consecutive whitespace
characters. -/
def scanNameP2 (acc : Str) : Str → Option Str
  | [] => if 2 ≤ acc.length then some acc.reverse else none
  | c :: rest =>
    if 2 ≤ acc.length ∧ c.isWhitespace ∧ (∃ d, rest.head? = some d ∧ d.isWhitespace) then
      some acc.reverse
    else if isNameChar c then scanNameP2 (c :: acc) rest
    else none

/-- Case-insensitive literal prefix match (for `re.IGNORECASE`); returns the
remainder of `s` after the pattern. -/
def matchCI : Str → Str → Option Str
  | [], s => some s
  | _ :: _, [] => none
  | p :: ps, c :: s => if c.toLower = p.toLower then matchCI ps s else none

/-- Attempt the header `Field\s+Employee:\s*` (case-insensitive) at the start
of `s`; on success return the remainder positioned at the name group. -/
def tryHeaderAt (s : Str) : Option Str := do
  let r1 ← matchCI "field".toList s
  let ws := r1.takeWhile Char.isWhitespace
  if ws.isEmpty then none
  else
    let r2 ← matchCI "employee:".toList (r1.dropWhile Char.isWhitespace)
    pure (r2.dropWhile Char.isWhitespace)

/-- `re.search` for one field-employee pattern: try every start position left
to right, matching the header and then the name group with the given scanner. -/
def searchFieldEmployee (scan : Str → Str → Option Str) : Str → Option Str
  | [] => none
  | c :: rest =>
    match tryHeaderAt (c :: rest) with
    | some tail =>
      (match tail with
       | d :: tl => if d.isAlpha then
           match scan [d] tl with
           | some g => some g
           | none => searchFieldEmployee scan rest
         else searchFieldEmployee scan rest
       | [] => searchFieldEmployee scan rest)
    | none => searchFieldEmployee scan rest

/-- `ClassificationService.extract_field_employee_name`: try the two patterns
in order; a match is returned only when the stripped group is longer than two
characters, otherwise the next pattern is tried. -/
def extract_field_employee_name (ocr_text : Str) : Option Str :=
  let try2 :=
    match searchFieldEmployee scanNameP2 ocr_text with
    | some g => if 2 < (stripS g).length then some (stripS g) else none
    | none => none
  match searchFieldEmployee scanNameP1 ocr_text with
  | some g => if 2 < (stripS g).length then some (stripS g) else try2
  | none => try2

/-- One row of the classified results DataFrame. -/
structure Record where
  Name : Str
  Credential_OCR : Str
  Credential_Standardized : Str
  Classification : Str
  Match_Score : ℚ
  Match_Method : MatchMethod
deriving DecidableEq, Repr

/-- Build one classified row from a parsed `(Name, Credential_OCR)` pair and
the result of `classify_credential` on the credential. -/
def mkRecord (svc : ClassificationService) (p : Str × Str) : Record :=
  let res := classify_credential svc p.2
  ⟨p.1, p.2, res.standardized, res.classification, res.score, res.method⟩

/-- `ClassificationService._override_field_employee`: rows whose
`Name.upper().strip()` equals the field employee's `upper().strip()` name get
classification and standardized credential `Field Employee`, method
`field_employee_override` and score 100; other rows are unchanged. -/
def override_one (field_emp_upper : Str) (r : Record) : Record :=
  if stripS (toUpperS r.Name) = field_emp_upper then
    { r with
      Classification := "Field Employee".toList
      Credential_Standardized := "Field Employee".toList
      Match_Method := .field_employee_override
      Match_Score := 100 }
  else r

/-- The row-wise `.loc[mask, ...]` assignment of `_override_field_employee`
as a map of `override_one` over the rows. -/
def override_field_employee (results : List Record) (field_employee_name : Str) :
    List Record :=
  results.map (override_one (stripS (toUpperS field_employee_name)))

/-- Loop of `remove_duplicate_names`; `seen` collects the uppercased names
already kept. -/
def dedupGo (seen : List Str) : List Record → List Record
  | [] => []
  | r :: rest =>
    if toUpperS r.Name ∈ seen then dedupGo seen rest
    else r :: dedupGo (toUpperS r.Name :: seen) rest

/-- `ClassificationService.remove_duplicate_names`:
`drop_duplicates(subset=['Name_Upper'], keep='first')` on `Name.str.upper()`. -/
def remove_duplicate_names (results : List Record) : List Record :=
  dedupGo [] results

/-- `ClassificationService.classify_ocr_results`: extract the field-employee
name, parse the OCR text, classify every parsed credential, apply the
field-employee override when a name was detected, then deduplicate names.
An empty parse returns an empty DataFrame before any override. -/
def classify_ocr_results (svc : ClassificationService) (ocr_text : Str) :
    List Record :=
  let field_employee_name := extract_field_employee_name ocr_text
  let extracted_data := parse_ocr_results ocr_text
  if extracted_data.isEmpty then []
  else
    let results := extracted_data.map (mkRecord svc)
    let results :=
      match field_employee_name with
      | some name => override_field_employee results name
      | none => results
    remove_duplicate_names results

/-- Outcome of one request to the external Gemini service: either response
text or an exception whose `str(e)` is the given message. -/
inductive ApiOutcome where
  | success (text : Str)
  | failure (msg : Str)
deriving DecidableEq, Repr

/-- A PIL image, of which `_compress_image` only inspects the dimensions. -/
structure Img where
  width : Nat
  height : Nat
deriving DecidableEq, Repr

/-- `GeminiClient._compress_image`: cap the longest edge at 2048 pixels,
scaling the other edge proportionally (`int` truncation embedded as `Nat`
floor division); images already within the cap are returned unchanged. -/
def compress_image (image : Img) : Img :=
  let max_size := 2048
  if max image.width image.height ≤ max_size then image
  else if image.height < image.width then
    ⟨max_size, image.height * max_size / image.width⟩
  else
    ⟨image.width * max_size / image.height, max_size⟩

/-- Error-message test of the rate-limit branch:
`"rate" in error_msg or "quota" in error_msg` on the lowercased message. -/
def rateLike (msg : Str) : Bool :=
  containsSub (toLowerS msg) "rate".toList || containsSub (toLowerS msg) "quota".toList

/-- Error-message test of the timeout branch: `"timeout" in error_msg`. -/
def timeoutLike (msg : Str) : Bool :=
  containsSub (toLowerS msg) "timeout".toList

/-- Result of a `generate_content` call: the response text or the propagated
exception message, together with the number of attempts performed against the
service.  `spinning` records that the recursion was still retrying when the
modelling fuel ran out. -/
inductive CallResult where
  | ok (text : Str) (attempts : Nat)
  | err (msg : Str) (attempts : Nat)
  | spinning (attempts : Nat)
deriving DecidableEq, Repr

/-- `GeminiClient.generate_content`, recursion made explicit. The external
service is a function from the attempt index to its outcome; `n` counts the
attempts already made.  On a rate/quota error the code sleeps 10 seconds and
calls itself with the same arguments; on a timeout with an image it calls
itself with the compressed image; a timeout without image and any other
error re-raise.  The recursion in the source has no retry counter, so the
embedding spends one unit of fuel per attempt. -/
def generate_content_aux (service : Nat → ApiOutcome) :
    Nat → Nat → Option Img → CallResult
  | 0, n, _ => .spinning n
  | fuel + 1, n, image =>
    match service n with
    | .success text => .ok text (n + 1)
    | .failure msg =>
      if rateLike msg then generate_content_aux service fuel (n + 1) image
      else if timeoutLike msg then
        match image with
        | some img => generate_content_aux service fuel (n + 1) (some (compress_image img))
        | none => .err msg (n + 1)
      else .err msg (n + 1)

/-- `GeminiClient.generate_content` entry point: first attempt has index 0. -/
def generate_content (service : Nat → ApiOutcome) (fuel : Nat)
    (image : Option Img) : CallResult :=
  generate_content_aux service fuel 0 image

/-- Page kinds assigned by the PDF page classifiers. -/
inductive PageKind where
  | signin
  | dinein
deriving DecidableEq, Repr

/-- Validation of one batch-classification token: `'signin' in c` wins, then
`'dinein' in c`, anything unclear defaults to `dinein`. -/
def validate_classification (c : Str) : PageKind :=
  if containsSub c "signin".toList then .signin
  else if containsSub c "dinein".toList then .dinein
  else .dinein

/-- `PDFProcessingService.classify_pages_batch` response handling: lowercase
and strip the response, split on commas, strip and validate each token, pad
with `dinein` up to `batch_size` and truncate to `batch_size`. -/
def classify_pages_batch (response_text : Str) (batch_size : Nat) : List PageKind :=
  let classifications := (splitOnChar ',' (toLowerS (stripS response_text))).map stripS
  let valid := classifications.map validate_classification
  (valid ++ List.replicate (batch_size - valid.length) PageKind.dinein).take batch_size

/-- Fixed-size batching (`sorted_results[start_idx:end_idx]` loop of
`process_pdf`). -/
def chunkList (bs : Nat) (l : List α) : List (List α) :=
  if l.isEmpty ∨ bs = 0 then []
  else l.take bs :: chunkList bs (l.drop bs)
termination_by l.length
decreasing_by
  simp only [List.length_drop]
  rcases l with _ | ⟨a, l⟩
  · simp_all
  · simp_all
    omega

/-- Page-classification stage of `PDFProcessingService.process_pdf`: classify
every page with Tesseract; if that finds zero `signin` pages, reclassify all
pages with the batch LLM classifier, one service call per fixed-size batch,
replacing the Tesseract results.  Returns the final per-page kinds and the
list of LLM batch calls that were issued. -/
def process_pdf_classify {α : Type} (batchSize : Nat) (tess : α → PageKind)
    (llm : List α → Str) (pages : List α) :
    List (α × PageKind) × List (List α) :=
  let tesseract_results := pages.map (fun p => (p, tess p))
  let signin_count := (tesseract_results.filter (fun pr => pr.2 = .signin)).length
  if signin_count = 0 then
    let batches := chunkList batchSize pages
    ((batches.map (fun b => b.zip (classify_pages_batch (llm b) b.length))).flatten,
      batches)
  else (tesseract_results, [])

/-- `fastapi.HTTPException`, reduced to its status code. -/
structure HTTPException where
  status : Nat
deriving DecidableEq, Repr

/-- `main.check_memory`: raise a 503 when process memory usage is above the
85% high-water mark, otherwise return the usage. -/
def check_memory (percent : ℚ) : Except HTTPException ℚ :=
  if 85 < percent then .error ⟨503⟩ else .ok percent

/-- `MAX_PDFS_PER_REQUEST` from the configuration. -/
def MAX_PDFS_PER_REQUEST : Nat := 50

/-- `pathlib.Path(name).suffix`: the extension from the last dot, empty when
there is no dot, the name ends in a dot, or the only dot is the leading one. -/
def path_suffix (s : Str) : Str :=
  let r := s.reverse
  let pre := r.takeWhile (fun c => c ≠ '.')
  if pre.length + 1 < r.length ∧ ¬ pre.isEmpty then '.' :: pre.reverse else []

/-- The file-type validation of `/process-images`:
`Path(file.filename).suffix.lower() == '.pdf'`. -/
def isPdfFile (filename : Str) : Bool := toLowerS (path_suffix filename) == ".pdf".toList

/-- Admission path of the `/process-images` endpoint: the memory check runs
first, then the count and file-type validations; success means a job is
created and queued. -/
def process_images_admission (percent : ℚ) (filenames : List Str) :
    Except HTTPException Unit :=
  match check_memory percent with
  | .error e => .error e
  | .ok _ =>
    if filenames.isEmpty then .error ⟨400⟩
    else if MAX_PDFS_PER_REQUEST < filenames.length then .error ⟨400⟩
    else if filenames.any (fun f => ¬ isPdfFile f) then .error ⟨400⟩
    else .ok ()

/-- Job states of the orchestrator (terminal subset relevant here). -/
inductive JobStatus where
  | completed
  | failed
deriving DecidableEq, Repr

/-- The per-sub-batch memory checks of the `process_pdfs_background` loop:
stop at the first check that raises. -/
def run_batch_checks : List ℚ → Except HTTPException Unit
  | [] => .ok ()
  | m :: rest =>
    match check_memory m with
    | .error e => .error e
    | .ok _ => run_batch_checks rest

/-- Memory-check control flow of `process_pdfs_background`: one check after
setup and one after each PDF sub-batch, all inside the `try` block. -/
def process_pdfs_background_memchecks (memInit : ℚ) (memAfterBatch : List ℚ) :
    Except HTTPException Unit :=
  match check_memory memInit with
  | .error e => .error e
  | .ok _ => run_batch_checks memAfterBatch

/-- Final job status produced by `process_pdfs_background` as a function of
the memory readings its checks observe: the `except` handler of the task
turns any escaped exception into status `failed`; otherwise the job
completes. -/
def process_pdfs_background_status (memInit : ℚ) (memAfterBatch : List ℚ) :
    JobStatus :=
  match process_pdfs_background_memchecks memInit memAfterBatch with
  | .ok _ => .completed
  | .error _ => .failed

/-- One row of the joined jurisdiction query
(`tbl_CredentialClassification` joined with `tbl_State_HCPCredential`). -/
structure StateCredRow where
  id : Int
  company_id : Int
  state : Str
  classification : Str
deriving DecidableEq, Repr

/-- SQL `DISTINCT` keeping first occurrences. -/
def distinctFirstGo (seen : List Int) : List Int → List Int
  | [] => []
  | x :: xs =>
    if x ∈ seen then distinctFirstGo seen xs
    else x :: distinctFirstGo (x :: seen) xs

/-- SQL `DISTINCT` on a projected column. -/
def distinctFirst (l : List Int) : List Int := distinctFirstGo [] l

/-- `CredentialService.get_state_specific_credential_ids`: ids of rows whose
state is `federal` or the venue state (lowercased), whose classification is
`hcp` (SQL comparison under the case-insensitive default collation) and whose
company matches; an empty result set is returned as the empty list. -/
def get_state_specific_credential_ids (db : List StateCredRow) (venue_state : Str)
    (company_id : Int) : List Int :=
  distinctFirst ((db.filter (fun r =>
    (toLowerS r.state = "federal".toList ∨ toLowerS r.state = toLowerS venue_state) ∧
    toLowerS r.classification = "hcp".toList ∧ r.company_id = company_id)).map (·.id))

/-- The methods defined on `ClassificationService` in
`app/services/classification_service.py`. -/
def classificationServiceMethods : List String :=
  ["__init__", "_load_mapping", "reload_with_company_id", "extract_field_employee_name",
   "parse_ocr_results", "classify_credential", "_fuzzy_match_credential",
   "classify_ocr_results", "_override_field_employee", "remove_duplicate_names",
   "save_results"]

/-- Python runtime errors relevant to the state-filtering call. -/
inductive PyError where
  | attributeError
deriving DecidableEq, Repr

/-- The call `page_classification_service.filter_by_state_credentials(...)` in
`process_batch.process_single_signin_page`: Python attribute lookup on the
service instance raises `AttributeError` when the class defines no such
method.  The `ok` branch (method present) is unreachable given
`classificationServiceMethods`; it is modelled as leaving the mapping
unchanged. -/
def invoke_filter_by_state_credentials (mapping : List NormRow) :
    Except PyError (List NormRow) :=
  if "filter_by_state_credentials" ∈ classificationServiceMethods then .ok mapping
  else .error .attributeError

/-- The state-filtering block of `process_single_signin_page`: with no venue
state, skip; with an empty id list, log a warning and skip; otherwise call
`filter_by_state_credentials` inside `try`, falling back to the unfiltered
mapping when the call raises. -/
def state_filter_step (mapping : List NormRow) (venue_state : Option Str)
    (valid_credential_ids : List Int) : List NormRow :=
  match venue_state with
  | none => mapping
  | some _ =>
    if valid_credential_ids.isEmpty then mapping
    else
      match invoke_filter_by_state_credentials mapping with
      | .ok m => m
      | .error _ => mapping

/-- Scope construction of `process_single_signin_page`: an isolated
`ClassificationService` for the page's company followed by the
state-filtering block, yielding the mapping table used for
`classify_ocr_results`. -/
def process_single_signin_page_scope (full : List MappingRow) (company_id : Int)
    (venue_state : Option Str) (db : List StateCredRow) : List NormRow :=
  let mapping := (mkClassificationService full (some company_id) 80 5).mapping_df
  match venue_state with
  | none => mapping
  | some vs =>
    state_filter_step mapping (some vs) (get_state_specific_credential_ids db vs company_id)

/-! Helper lemmas shared across the claims. -/

/-- Every row of a company-scoped mapping is the normalization of a full-table
row belonging to that company. -/
theorem mem_load_mapping_some {full : List MappingRow} {cid : Int} {r : NormRow}
    (h : r ∈ load_mapping full (some cid)) :
    ∃ row ∈ full, row.company_id = cid ∧ r = normalizeRow row := by
  simp only [load_mapping, List.mem_map, List.mem_filter, beq_iff_eq] at h
  obtain ⟨row, ⟨hmem, hcid⟩, hr⟩ := h
  exact ⟨row, hmem, hcid, hr.symm⟩

/-- A successful fuzzy match reports the fields and company of some row of the
scoped mapping table. -/
theorem fuzzy_match_credential_mem {svc : ClassificationService} {cu : Str}
    {cls std : Str} {score : ℚ} {company : Int}
    (h : fuzzy_match_credential svc cu = some (cls, std, score, company)) :
    ∃ r ∈ svc.mapping_df, cls = r.row.classification ∧ std = r.row.credential ∧
      company = r.row.company_id := by
  unfold fuzzy_match_credential at h
  split at h
  · exact absurd h (by simp)
  · split at h
    · exact absurd h (by simp)
    · split at h
      · rename_i heqfind
        split at h
        · rename_i m heq
          obtain ⟨h1, h2, h3, h4⟩ := by simpa using h
          exact ⟨m, List.mem_of_find?_eq_some heq, h1.symm, h2.symm, h4.symm⟩
        · exact absurd h (by simp)
      · exact absurd h (by simp)

/-- Any company-tagged result of `classify_credential` takes its
classification, standardized credential and company from a row of the scoped
mapping table. -/
theorem classify_credential_companyTag {svc : ClassificationService} {cred : Str}
    {co : Int} (h : (classify_credential svc cred).method.companyTag = some co) :
    ∃ r ∈ svc.mapping_df, r.row.company_id = co ∧
      (classify_credential svc cred).classification = r.row.classification ∧
      (classify_credential svc cred).standardized = r.row.credential := by
  revert h
  unfold classify_credential
  simp only []
  split
  · intro h
    exact absurd h (by simp [MatchMethod.companyTag])
  · split
    · rename_i m heq
      intro h
      simp only [MatchMethod.companyTag, Option.some.injEq] at h
      exact ⟨m, List.mem_of_find?_eq_some heq, h, rfl, rfl⟩
    · split
      · rename_i m heq
        intro h
        simp only [MatchMethod.companyTag, Option.some.injEq] at h
        exact ⟨m, List.mem_of_find?_eq_some heq, h, rfl, rfl⟩
      · split
        · split
          · rename_i res heq
            intro h
            simp only [MatchMethod.companyTag, Option.some.injEq] at h
            obtain ⟨r, hr, h1, h2, h3⟩ :=
              @fuzzy_match_credential_mem _ _ res.1 res.2.1 res.2.2.1 res.2.2.2
                (by rw [heq])
            exact ⟨r, hr, h ▸ h3.symm, h1, h2⟩
          · intro h
            exact absurd h (by simp [MatchMethod.companyTag])
        · intro h
          exact absurd h (by simp [MatchMethod.companyTag])

/-- Records surviving deduplication come from the input list. -/
theorem mem_of_mem_dedupGo {seen : List Str} {l : List Record} {r : Record}
    (h : r ∈ dedupGo seen l) : r ∈ l := by
  induction l generalizing seen with
  | nil => simp [dedupGo] at h
  | cons a rest ih =>
    simp only [dedupGo] at h
    split at h
    · exact List.mem_cons_of_mem a (ih h)
    · rcases List.mem_cons.mp h with h1 | h2
      · simp [h1]
      · exact List.mem_cons_of_mem a (ih h2)

/-- The uppercased name of a surviving record was not among the already-seen
keys when deduplication started. -/
theorem dedupGo_key_notin {seen : List Str} {l : List Record} {r : Record}
    (h : r ∈ dedupGo seen l) : toUpperS r.Name ∉ seen := by
  induction l generalizing seen with
  | nil => simp [dedupGo] at h
  | cons a rest ih =>
    simp only [dedupGo] at h
    split at h
    · exact ih h
    · rcases List.mem_cons.mp h with h1 | h2
      · subst h1
        assumption
      · intro hc
        exact ih h2 (List.mem_cons_of_mem _ hc)

/-- A record surviving the override step either got the override fields or was
passed through unchanged from the input. -/
theorem mem_override_field_employee {l : List Record} {name : Str} {r : Record}
    (h : r ∈ override_field_employee l name) :
    r.Match_Method = .field_employee_override ∨ r ∈ l := by
  simp only [override_field_employee, List.mem_map] at h
  obtain ⟨r0, hr0, hr⟩ := h
  unfold override_one at hr
  by_cases hc : stripS (toUpperS r0.Name) = stripS (toUpperS name)
  · left
    rw [if_pos hc] at hr
    rw [← hr]
  · right
    rw [if_neg hc] at hr
    exact hr ▸ hr0

/-- Every record of `classify_ocr_results` is an override record or is built
by `mkRecord` from some parsed line. -/
theorem mem_classify_ocr_results {svc : ClassificationService} {text : Str}
    {rec : Record} (h : rec ∈ classify_ocr_results svc text) :
    rec.Match_Method = .field_employee_override ∨
      ∃ p ∈ parse_ocr_results text, rec = mkRecord svc p := by
  unfold classify_ocr_results at h
  simp only [] at h
  split at h
  · simp at h
  · have h1 := @mem_of_mem_dedupGo [] _ _ h
    revert h1
    split
    · intro h1
      rcases mem_override_field_employee h1 with h2 | h2
      · exact Or.inl h2
      · simp only [List.mem_map] at h2
        obtain ⟨p, hp, hrec⟩ := h2
        exact Or.inr ⟨p, hp, hrec.symm⟩
    · intro h1
      simp only [List.mem_map] at h1
      obtain ⟨p, hp, hrec⟩ := h1
      exact Or.inr ⟨p, hp, hrec.symm⟩

/-- Claim C1: under a service scoped (constructed or reloaded) to company `C`,
every match returned by `classify_credential` — exact on PossibleNames, exact
on Credential, or fuzzy on PossibleNames — reports company `C` and takes its
fields from a catalog row whose `company_id` is `C`; consequently no record
produced by `classify_ocr_results` under that scope carries a match from a
different company. -/
theorem C1_company_scope_invariant (full : List MappingRow) (C : Int)
    (thr : ℚ) (minLen : Nat) :
    (∀ cred co,
        (classify_credential (mkClassificationService full (some C) thr minLen)
            cred).method.companyTag = some co →
        co = C ∧ ∃ row ∈ full, row.company_id = C ∧
          (classify_credential (mkClassificationService full (some C) thr minLen)
              cred).classification = row.classification ∧
          (classify_credential (mkClassificationService full (some C) thr minLen)
              cred).standardized = row.credential) ∧
    (∀ text rec co,
        rec ∈ classify_ocr_results (mkClassificationService full (some C) thr minLen) text →
        rec.Match_Method.companyTag = some co → co = C) := by
  constructor
  · intro cred co h
    obtain ⟨r, hr, hco, hcls, hstd⟩ := classify_credential_companyTag h
    obtain ⟨row, hrow, hcid, hnorm⟩ := mem_load_mapping_some hr
    have hrr : r.row = row := by subst hnorm; rfl
    refine ⟨?_, row, hrow, hcid, ?_, ?_⟩
    · rw [← hco, hrr, hcid]
    · rw [hcls, hrr]
    · rw [hstd, hrr]
  · intro text rec co hmem htag
    rcases mem_classify_ocr_results hmem with h | ⟨p, hp, hrec⟩
    · rw [h] at htag
      simp [MatchMethod.companyTag] at htag
    · have hmeth : rec.Match_Method =
          (classify_credential (mkClassificationService full (some C) thr minLen) p.2).method := by
        rw [hrec]
        rfl
      rw [hmeth] at htag
      obtain ⟨r, hr, hco, -, -⟩ := classify_credential_companyTag htag
      obtain ⟨row, hrow, hcid, hnorm⟩ := mem_load_mapping_some hr
      have hrr : r.row = row := by subst hnorm; rfl
      rw [← hco, hrr, hcid]

/-- Concrete catalog used to instantiate theorems with hypotheses. -/
def exampleCatalog : List MappingRow :=
  [⟨"MD".toList, "Doctor of Medicine".toList, "HCP".toList, 1⟩,
   ⟨"RN".toList, "RN".toList, "HCP".toList, 1⟩,
   ⟨"MD".toList, "MD".toList, "HCP".toList, 2⟩]

/-- The example catalog scoped to company 1 with the default thresholds. -/
def exampleService : ClassificationService :=
  mkClassificationService exampleCatalog (some 1) 80 5

/-- Witness for C1: classifying `md` under the company-1 scope of the example
catalog yields an exact PossibleNames match tagged with company 1, whose
fields come from a company-1 catalog row. -/
theorem C1_company_scope_invariant_witness :
    (1 : Int) = 1 ∧ ∃ row ∈ exampleCatalog, row.company_id = 1 ∧
      (classify_credential (mkClassificationService exampleCatalog (some 1) 80 5)
          "md".toList).classification = row.classification ∧
      (classify_credential (mkClassificationService exampleCatalog (some 1) 80 5)
          "md".toList).standardized = row.credential :=
  (C1_company_scope_invariant exampleCatalog 1 80 5).1 "md".toList 1 (by decide)

/-- A surviving record is the first input record with its uppercased name. -/
theorem dedupGo_find_first {seen : List Str} {l : List Record} {r : Record}
    (h : r ∈ dedupGo seen l) :
    l.find? (fun x => toUpperS x.Name == toUpperS r.Name) = some r := by
  induction l generalizing seen with
  | nil => simp [dedupGo] at h
  | cons a rest ih =>
    simp only [dedupGo] at h
    split at h
    · rename_i hseen
      have hfind := ih h
      have hnotin := dedupGo_key_notin h
      have hne : ¬ (toUpperS a.Name == toUpperS r.Name) = true := by
        intro hb
        rw [beq_iff_eq] at hb
        exact hnotin (hb ▸ hseen)
      simp [List.find?_cons, hne, hfind]
    · rename_i hseen
      rcases List.mem_cons.mp h with rfl | h2
      · simp [List.find?_cons]
      · have hfind := ih h2
        have hnotin := dedupGo_key_notin h2
        have hne : ¬ (toUpperS a.Name == toUpperS r.Name) = true := by
          intro hb
          rw [beq_iff_eq] at hb
          exact hnotin (by simp [hb])
        simp [List.find?_cons, hne, hfind]

/-- No two surviving records share an uppercased name. -/
theorem dedupGo_pairwise (seen : List Str) (l : List Record) :
    (dedupGo seen l).Pairwise (fun a b => toUpperS a.Name ≠ toUpperS b.Name) := by
  induction l generalizing seen with
  | nil => simp [dedupGo]
  | cons a rest ih =>
    simp only [dedupGo]
    split
    · exact ih _
    · refine List.Pairwise.cons ?_ (ih _)
      intro b hb he
      exact dedupGo_key_notin hb (by simp [he])

/-- Claim C2: after `remove_duplicate_names` no two surviving records have
case-insensitively equal names and each surviving record is the first
occurrence of its name in original order; on the input lines
`- Jane Doe, MD` then `- Jane Doe, RN` the classified output is exactly one
record for Jane Doe carrying the credential of the first line (`MD`). -/
theorem C2_dedup_first_occurrence :
    (∀ rs : List Record,
        (remove_duplicate_names rs).Pairwise
          (fun a b => toUpperS a.Name ≠ toUpperS b.Name) ∧
        ∀ r ∈ remove_duplicate_names rs,
          rs.find? (fun x => toUpperS x.Name == toUpperS r.Name) = some r) ∧
    classify_ocr_results exampleService "- Jane Doe, MD\n- Jane Doe, RN".toList =
      [⟨"Jane Doe".toList, "MD".toList, "Doctor of Medicine".toList, "HCP".toList,
        100, .exact_possiblenames 1⟩] := by
  constructor
  · intro rs
    exact ⟨dedupGo_pairwise [] rs, fun r hr => dedupGo_find_first hr⟩
  · decide

/-- Concrete record used by witness instantiations (MD line). -/
def recJaneMD : Record :=
  ⟨"Jane Doe".toList, "MD".toList, "MD".toList, "HCP".toList, 100, .no_match⟩

/-- Concrete record used by witness instantiations (RN line, name differing
only by case). -/
def recJaneRN : Record :=
  ⟨"JANE DOE".toList, "RN".toList, "RN".toList, "HCP".toList, 100, .no_match⟩

/-- Witness for C2: instantiating the deduplication part on a concrete
two-record list with case-insensitively equal names. -/
theorem C2_dedup_first_occurrence_witness :
    (remove_duplicate_names [recJaneMD, recJaneRN]).Pairwise
      (fun a b => toUpperS a.Name ≠ toUpperS b.Name) ∧
    [recJaneMD, recJaneRN].find?
      (fun x => toUpperS x.Name == toUpperS recJaneMD.Name) = some recJaneMD :=
  ⟨(C2_dedup_first_occurrence.1 [recJaneMD, recJaneRN]).1,
   (C2_dedup_first_occurrence.1 [recJaneMD, recJaneRN]).2 recJaneMD (by decide)⟩

/-- Modelled from the spec sentence "the result of classification is
identical whether fuzzy matching is enabled or disabled": `classify_credential`
with tier 3 removed — only the exact tiers 1-2 and the Non-HCP default. -/
def classify_credential_fuzzy_disabled (svc : ClassificationService)
    (credential_ocr : Str) : ClassifyResult :=
  let credential_upper := stripS (toUpperS credential_ocr)
  if svc.mapping_df.isEmpty then
    ⟨"Non-HCP".toList, credential_ocr, 0, .no_mapping_data⟩
  else
    match svc.mapping_df.find? (fun r => r.possibleNamesUpper == credential_upper) with
    | some m =>
      ⟨m.row.classification, m.row.credential, 100, .exact_possiblenames m.row.company_id⟩
    | none =>
      match svc.mapping_df.find? (fun r => r.credentialUpper == credential_upper) with
      | some m =>
        ⟨m.row.classification, m.row.credential, 100, .exact_credential m.row.company_id⟩
      | none => ⟨"Non-HCP".toList, credential_ocr, 0, .no_match⟩

/-- Stripping never lengthens a string. -/
theorem stripS_length_le (s : Str) : (stripS s).length ≤ s.length := by
  unfold stripS
  rw [List.length_reverse]
  calc ((s.dropWhile Char.isWhitespace).reverse.dropWhile Char.isWhitespace).length
      ≤ (s.dropWhile Char.isWhitespace).reverse.length :=
        (List.dropWhile_sublist _).length_le
    _ = (s.dropWhile Char.isWhitespace).length := List.length_reverse _
    _ ≤ s.length := (List.dropWhile_sublist _).length_le

/-- Claim C7: for raw credential strings shorter than the fuzzy-match minimum
length, `classify_credential` never enters tier-3 fuzzy matching — its result
equals the classification with fuzzy matching disabled (tiers 1-2 and the
Non-HCP default only). -/
theorem C7_short_strings_skip_fuzzy (svc : ClassificationService) (cred : Str)
    (h : cred.length < svc.min_fuzzy_length) :
    classify_credential svc cred = classify_credential_fuzzy_disabled svc cred := by
  have hlen : (stripS (toUpperS cred)).length < svc.min_fuzzy_length := by
    have h1 := stripS_length_le (toUpperS cred)
    have h2 : (toUpperS cred).length = cred.length := List.length_map _ _
    omega
  unfold classify_credential classify_credential_fuzzy_disabled
  simp only []
  split
  · rfl
  · split
    · rfl
    · split
      · rfl
      · rw [if_neg (by omega)]

/-- Witness for C7: the two-character credential `AB` is classified
identically with and without fuzzy matching under the example service. -/
theorem C7_short_strings_skip_fuzzy_witness :
    "AB".toList.length < exampleService.min_fuzzy_length ∧
    classify_credential exampleService "AB".toList =
      classify_credential_fuzzy_disabled exampleService "AB".toList :=
  ⟨by decide, C7_short_strings_skip_fuzzy exampleService "AB".toList (by decide)⟩

/-- A service that fails with a rate-limit error on the first two attempts
and then succeeds. -/
def svcRateTwice : Nat → ApiOutcome := fun n =>
  if n < 2 then .failure "429 rate limit exceeded".toList else .success "ok".toList

/-- A service that fails with a timeout error on the first two attempts and
then succeeds. -/
def svcTimeoutTwice : Nat → ApiOutcome := fun n =>
  if n < 2 then .failure "deadline exceeded: timeout".toList else .success "ok".toList

/-- Counterexample to C3: after two rate-limit failures `generate_content`
makes a third attempt and succeeds — two automatic retries, not at most one;
and with an image payload a second timeout does not propagate as a fatal
error: the call is retried again and succeeds on the third attempt. -/
theorem C3_counterexample :
    generate_content svcRateTwice 10 none = .ok "ok".toList 3 ∧
    generate_content svcTimeoutTwice 10 (some ⟨4096, 2048⟩) = .ok "ok".toList 3 := by
  constructor
  · decide
  · decide

/-- With any positive fuel the first attempt is made and its outcome is
dispatched exactly as in the source. -/
theorem generate_content_aux_rate_run (service : Nat → ApiOutcome)
    (msgs : Nat → Str) (t : Str) (m : Nat) :
    ∀ fuel n img, (∀ i, i < m → service i = .failure (msgs i)) →
      (∀ i, i < m → rateLike (msgs i) = true) →
      service m = .success t → n ≤ m → m - n < fuel →
      generate_content_aux service fuel n img = .ok t (m + 1) := by
  intro fuel
  induction fuel with
  | zero => omega
  | succ fuel ih =>
    intro n img hmsg hrate hsucc hnm hfuel
    rcases Nat.eq_or_lt_of_le hnm with rfl | hlt
    · simp [generate_content_aux, hsucc]
    · have h1 := hmsg n hlt
      have h2 := hrate n hlt
      simp only [generate_content_aux, h1, h2, if_pos]
      exact ih (n + 1) img hmsg hrate hsucc hlt (by omega)

/-- Same run lemma for a chain of timeout failures carrying an image: each
retry keeps some (compressed) image, so the call eventually succeeds. -/
theorem generate_content_aux_timeout_run (service : Nat → ApiOutcome)
    (msgs : Nat → Str) (t : Str) (m : Nat) :
    ∀ fuel n img, (∀ i, i < m → service i = .failure (msgs i)) →
      (∀ i, i < m → rateLike (msgs i) = false ∧ timeoutLike (msgs i) = true) →
      service m = .success t → n ≤ m → m - n < fuel →
      generate_content_aux service fuel n (some img) = .ok t (m + 1) := by
  intro fuel
  induction fuel with
  | zero => omega
  | succ fuel ih =>
    intro n img hmsg hkind hsucc hnm hfuel
    rcases Nat.eq_or_lt_of_le hnm with rfl | hlt
    · simp [generate_content_aux, hsucc]
    · have h1 := hmsg n hlt
      obtain ⟨h2, h3⟩ := hkind n hlt
      simp only [generate_content_aux, h1, h2, h3, Bool.false_eq_true, if_false, if_pos]
      exact ih (n + 1) (compress_image img) hmsg hkind hsucc hlt (by omega)

/-- Claim C3 as amended: on rate-limit errors the client retries recursively
without any bound — for every `k` a service that rate-limits `k` times and
then succeeds is retried `k` times and returns the success after `k + 1`
attempts; on timeouts with an image payload it likewise retries recursively
without bound (a second timeout does not propagate); a timeout without an
image payload and every other failure propagate immediately with no retry;
and the timeout retry downscales the image so that its longest edge is capped
at 2048 pixels. -/
theorem C3_retry_behavior :
    (∀ (service : Nat → ApiOutcome) (msgs : Nat → Str) (t : Str) (m fuel : Nat)
        (img : Option Img),
      (∀ i, i < m → service i = .failure (msgs i)) →
      (∀ i, i < m → rateLike (msgs i) = true) →
      service m = .success t → m < fuel →
      generate_content service fuel img = .ok t (m + 1)) ∧
    (∀ (service : Nat → ApiOutcome) (msgs : Nat → Str) (t : Str) (m fuel : Nat)
        (img : Img),
      (∀ i, i < m → service i = .failure (msgs i)) →
      (∀ i, i < m → rateLike (msgs i) = false ∧ timeoutLike (msgs i) = true) →
      service m = .success t → m < fuel →
      generate_content service fuel (some img) = .ok t (m + 1)) ∧
    (∀ (service : Nat → ApiOutcome) (msg : Str) (fuel : Nat),
      service 0 = .failure msg → rateLike msg = false → timeoutLike msg = true →
      0 < fuel → generate_content service fuel none = .err msg 1) ∧
    (∀ (service : Nat → ApiOutcome) (msg : Str) (fuel : Nat) (img : Option Img),
      service 0 = .failure msg → rateLike msg = false → timeoutLike msg = false →
      0 < fuel → generate_content service fuel img = .err msg 1) ∧
    (∀ img : Img, 2048 < max img.width img.height →
      max (compress_image img).width (compress_image img).height ≤ 2048) := by
  refine ⟨?_, ?_, ?_, ?_, ?_⟩
  · intro service msgs t m fuel img hmsg hrate hsucc hfuel
    exact generate_content_aux_rate_run service msgs t m fuel 0 img hmsg hrate hsucc
      (Nat.zero_le m) (by omega)
  · intro service msgs t m fuel img hmsg hkind hsucc hfuel
    exact generate_content_aux_timeout_run service msgs t m fuel 0 img hmsg hkind hsucc
      (Nat.zero_le m) (by omega)
  · intro service msg fuel h1 h2 h3 hfuel
    obtain ⟨fuel, rfl⟩ : ∃ f, fuel = f + 1 := ⟨fuel - 1, by omega⟩
    simp [generate_content, generate_content_aux, h1, h2, h3]
  · intro service msg fuel img h1 h2 h3 hfuel
    obtain ⟨fuel, rfl⟩ : ∃ f, fuel = f + 1 := ⟨fuel - 1, by omega⟩
    cases img <;> simp [generate_content, generate_content_aux, h1, h2, h3]
  · intro img hbig
    unfold compress_image
    rw [if_neg (by omega)]
    obtain ⟨w, h⟩ := img
    simp only at hbig ⊢
    by_cases hwh : h < w
    · rw [if_pos hwh]
      simp only [max_le_iff]
      refine ⟨le_refl _, ?_⟩
      have : h * 2048 ≤ w * 2048 := by omega
      calc h * 2048 / w ≤ w * 2048 / w := Nat.div_le_div_right this
        _ ≤ 2048 := by
          rcases Nat.eq_zero_or_pos w with rfl | hw
          · simp
          · rw [Nat.mul_div_cancel_left 2048 hw]
    · rw [if_neg hwh]
      simp only [max_le_iff]
      refine ⟨?_, le_refl _⟩
      have hhw : w ≤ h := by omega
      have : w * 2048 ≤ h * 2048 := by omega
      calc w * 2048 / h ≤ h * 2048 / h := Nat.div_le_div_right this
        _ ≤ 2048 := by
          rcases Nat.eq_zero_or_pos h with rfl | hh
          · simp
          · rw [Nat.mul_div_cancel_left 2048 hh]

/-- A service that fails with a rate-limit error on the first three attempts
and then succeeds. -/
def svcRateThree : Nat → ApiOutcome := fun n =>
  if n < 3 then .failure "rate limit".toList else .success "ok".toList

/-- A service whose first outcome is a permission error. -/
def svcDenied : Nat → ApiOutcome := fun _ => .failure "permission denied".toList

/-- Witness for the amended C3: three rate-limit failures are retried through
(four attempts), and a non-rate, non-timeout failure propagates after one
attempt. -/
theorem C3_retry_behavior_witness :
    generate_content svcRateThree 10 none = .ok "ok".toList 4 ∧
    generate_content svcDenied 10 none = .err "permission denied".toList 1 := by
  constructor
  · exact C3_retry_behavior.1 svcRateThree (fun _ => "rate limit".toList)
      "ok".toList 3 10 none
      (fun i hi => by unfold svcRateThree; rw [if_pos hi])
      (fun i hi => by
        show rateLike "rate limit".toList = true
        decide)
      (by decide) (by omega)
  · exact C3_retry_behavior.2.2.2.1 svcDenied "permission denied".toList 10 none
      (by decide) (by decide) (by decide) (by omega)

/-- When a field-employee name was extracted, every record of
`classify_ocr_results` is the override image of a record built from a parsed
line. -/
theorem mem_classify_ocr_results_override {svc : ClassificationService}
    {text name : Str} {rec : Record}
    (hname : extract_field_employee_name text = some name)
    (h : rec ∈ classify_ocr_results svc text) :
    ∃ p ∈ parse_ocr_results text,
      rec = override_one (stripS (toUpperS name)) (mkRecord svc p) := by
  unfold classify_ocr_results at h
  simp only [hname] at h
  split at h
  · simp at h
  · have h1 := mem_of_mem_dedupGo h
    simp only [override_field_employee, List.mem_map] at h1
    obtain ⟨r0, hr0, hr⟩ := h1
    obtain ⟨p, hp, hpr⟩ := hr0
    exact ⟨p, hp, by rw [← hr, ← hpr]⟩

/-- OCR text with a field-employee header whose name does not appear among
the body lines. -/
def c4TextAbsent : Str := "Field Employee: John Smith\n- Jane Doe, MD".toList

/-- Counterexample to C4: the header name `John Smith` is extracted but does
not appear in the body, and the result set contains only the Jane Doe body
record — no synthetic FieldEmployee record is appended. -/
theorem C4_counterexample :
    extract_field_employee_name c4TextAbsent = some "John Smith".toList ∧
    (classify_ocr_results exampleService c4TextAbsent).map Record.Name =
      ["Jane Doe".toList] ∧
    ∀ r ∈ classify_ocr_results exampleService c4TextAbsent,
      r.Classification ≠ "Field Employee".toList := by
  refine ⟨by decide, by decide, by decide⟩

/-- Claim C4 as amended: when a field-representative header is detected, body
records whose name matches it case-insensitively are forced to classification
`Field Employee` with canonical credential `Field Employee`, score 100 and
the override method, regardless of the tier result; every output record comes
from a parsed body line — when the header name does not appear in the body,
nothing is appended and the result set is unchanged apart from logging. -/
theorem C4_field_employee_override (svc : ClassificationService)
    (text name : Str)
    (hname : extract_field_employee_name text = some name) :
    (∀ r ∈ classify_ocr_results svc text,
        stripS (toUpperS r.Name) = stripS (toUpperS name) →
        r.Classification = "Field Employee".toList ∧
        r.Credential_Standardized = "Field Employee".toList ∧
        r.Match_Score = 100 ∧ r.Match_Method = .field_employee_override) ∧
    (∀ r ∈ classify_ocr_results svc text,
        ∃ p ∈ parse_ocr_results text, r.Name = p.1) := by
  constructor
  · intro r hr hkey
    obtain ⟨p, hp, hrec⟩ := mem_classify_ocr_results_override hname hr
    unfold override_one at hrec
    by_cases hc : stripS (toUpperS (mkRecord svc p).Name) = stripS (toUpperS name)
    · rw [if_pos hc] at hrec
      rw [hrec]
      exact ⟨rfl, rfl, rfl, rfl⟩
    · rw [if_neg hc] at hrec
      rw [hrec] at hkey
      exact absurd hkey hc
  · intro r hr
    obtain ⟨p, hp, hrec⟩ := mem_classify_ocr_results_override hname hr
    refine ⟨p, hp, ?_⟩
    rw [hrec]
    unfold override_one
    split
    · rfl
    · rfl

/-- OCR text where the field-employee header name also appears in the body
with credential `RN`. -/
def c4TextIn : Str := "Field Employee: Dr. Smith\n- Dr. Smith, RN".toList

/-- The output record for Dr. Smith under the example service. -/
def drSmithRec : Record :=
  ⟨"Dr. Smith".toList, "RN".toList, "Field Employee".toList,
    "Field Employee".toList, 100, .field_employee_override⟩

/-- Witness for the amended C4: the body record for the header name
`Dr. Smith` (credential `RN`, an HCP catalog entry) ends up classified
`Field Employee`, not `HCP`. -/
theorem C4_field_employee_override_witness :
    drSmithRec.Classification = "Field Employee".toList ∧
    drSmithRec.Credential_Standardized = "Field Employee".toList ∧
    drSmithRec.Match_Score = 100 ∧
    drSmithRec.Match_Method = .field_employee_override :=
  (C4_field_employee_override exampleService c4TextIn "Dr. Smith".toList
      (by decide)).1 drSmithRec (by decide) (by decide)

/-- Counterexample to C5: with 50% memory at admission and a 90% reading
after a sub-batch, the background task's own memory check raises and the
in-flight job transitions to `failed` — the pressure check is not
admission-only. -/
theorem C5_counterexample :
    (85 : ℚ) < 90 ∧ process_pdfs_background_status 50 [90] = .failed := by
  constructor
  · norm_num
  · decide

/-- The batch-loop memory checks succeed exactly when no reading exceeds the
high-water mark. -/
theorem run_batch_checks_ok_iff (mems : List ℚ) :
    run_batch_checks mems = Except.ok () ↔ ∀ m ∈ mems, ¬ 85 < m := by
  induction mems with
  | nil => simp [run_batch_checks]
  | cons a rest ih =>
    by_cases ha : 85 < a
    · simp [run_batch_checks, check_memory, if_pos ha, ha]
    · simp [run_batch_checks, check_memory, if_neg ha, ha, ih]
      exact fun _ => le_of_not_lt ha

/-- Claim C5 as amended: the 85% memory check guards admission — a
submission under pressure is rejected with a 503 surfaced to the caller, and
no 503 is produced below the mark — but it also runs inside the background
task after setup and after each PDF sub-batch, where exceeding the mark makes
the in-flight job itself transition to `failed`. -/
theorem C5_memory_backpressure :
    (∀ (p : ℚ) (files : List Str), 85 < p →
        process_images_admission p files = .error ⟨503⟩) ∧
    (∀ (p : ℚ) (files : List Str), ¬ 85 < p →
        process_images_admission p files ≠ .error ⟨503⟩) ∧
    (∀ (memInit : ℚ) (mems : List ℚ),
        process_pdfs_background_status memInit mems = .failed ↔
          (85 < memInit ∨ ∃ m ∈ mems, 85 < m)) := by
  refine ⟨?_, ?_, ?_⟩
  · intro p files hp
    simp [process_images_admission, check_memory, if_pos hp]
  · intro p files hp
    simp only [process_images_admission, check_memory, if_neg hp]
    split
    · intro hc
      simp at hc
    · split
      · intro hc
        simp at hc
      · split
        · intro hc
          simp at hc
        · intro hc
          simp at hc
  · intro memInit mems
    unfold process_pdfs_background_status process_pdfs_background_memchecks
    by_cases hmi : 85 < memInit
    · simp [check_memory, if_pos hmi, hmi]
    · simp only [check_memory, if_neg hmi]
      rcases h : run_batch_checks mems with e | u
      · have hnotok : ¬ run_batch_checks mems = Except.ok () := by simp [h]
        have hex : ∃ m ∈ mems, 85 < m := by
          by_contra hno
          push_neg at hno
          exact hnotok ((run_batch_checks_ok_iff mems).mpr (by
            intro m hm
            exact fun hgt => absurd hgt (by simpa using hno m hm)))
        simp only []
        constructor
        · intro _
          exact Or.inr hex
        · intro _
          trivial
      · obtain rfl : u = () := rfl
        have hok := (run_batch_checks_ok_iff mems).mp h
        simp only []
        constructor
        · intro hc
          exact absurd hc (by simp)
        · intro hc
          rcases hc with hc | ⟨m, hm, hm85⟩
          · exact absurd hc hmi
          · exact absurd hm85 (hok m hm)

/-- Witness for the amended C5: a 90% reading at admission yields a 503
rejection, and a job whose only post-batch reading is 90% fails. -/
theorem C5_memory_backpressure_witness :
    process_images_admission 90 ["a.pdf".toList] = .error ⟨503⟩ ∧
    (process_pdfs_background_status 50 [90] = .failed ↔
      ((85 : ℚ) < 50 ∨ ∃ m ∈ [(90 : ℚ)], 85 < m)) :=
  ⟨C5_memory_backpressure.1 90 ["a.pdf".toList] (by norm_num),
   C5_memory_backpressure.2.2 50 [90]⟩

/-- Concatenating the fixed-size batches restores the page list. -/
theorem chunkList_flatten {α : Type} (bs : Nat) (hbs : 0 < bs) (l : List α) :
    (chunkList bs l).flatten = l := by
  have key : ∀ n (l : List α), l.length ≤ n → (chunkList bs l).flatten = l := by
    intro n
    induction n with
    | zero =>
      intro l hl
      have : l = [] := List.length_eq_zero.mp (Nat.le_zero.mp hl)
      subst this
      rw [chunkList]
      simp
    | succ n ih =>
      intro l hl
      rw [chunkList]
      split
      · rename_i hc
        rcases hc with hc | hc
        · rw [List.isEmpty_iff] at hc
          simp [hc]
        · omega
      · rename_i hc
        push_neg at hc
        obtain ⟨hne, -⟩ := hc
        have hpos : 0 < l.length := by
          rcases l with _ | ⟨a, l⟩
          · simp at hne
          · simp
        simp only [List.flatten_cons]
        rw [ih (l.drop bs) (by rw [List.length_drop]; omega)]
        exact List.take_append_drop bs l
  exact key l.length l (le_refl _)

/-- Every batch is non-empty and no larger than the batch size. -/
theorem chunkList_batch_sizes {α : Type} (bs : Nat) (l : List α) :
    ∀ b ∈ chunkList bs l, b ≠ [] ∧ b.length ≤ bs := by
  have key : ∀ n (l : List α), l.length ≤ n →
      ∀ b ∈ chunkList bs l, b ≠ [] ∧ b.length ≤ bs := by
    intro n
    induction n with
    | zero =>
      intro l hl b hb
      have : l = [] := List.length_eq_zero.mp (Nat.le_zero.mp hl)
      subst this
      rw [chunkList] at hb
      simp at hb
    | succ n ih =>
      intro l hl b hb
      rw [chunkList] at hb
      split at hb
      · simp at hb
      · rename_i hc
        push_neg at hc
        obtain ⟨hne, hbs⟩ := hc
        have hpos : 1 ≤ l.length := by
          rcases l with _ | ⟨a, l⟩
          · simp at hne
          · simp
        rcases List.mem_cons.mp hb with rfl | hb2
        · constructor
          · intro hnil
            have h0 : (List.take bs l).length = 0 := by rw [hnil]; rfl
            rw [List.length_take] at h0
            omega
          · rw [List.length_take]
            omega
        · exact ih (l.drop bs) (by rw [List.length_drop]; omega) b hb2
  exact key l.length l (le_refl _)

/-- A non-empty list no longer than the batch size forms exactly one batch. -/
theorem chunkList_single {α : Type} (bs : Nat) (l : List α) (h0 : l ≠ [])
    (hle : l.length ≤ bs) : chunkList bs l = [l] := by
  rw [chunkList]
  rw [if_neg (by
    push_neg
    constructor
    · simpa [List.isEmpty_iff] using h0
    · intro hbs
      subst hbs
      exact h0 (List.length_eq_zero.mp (Nat.le_zero.mp hle)))]
  rw [List.take_of_length_le hle, List.drop_eq_nil_of_le hle, chunkList]
  simp

/-- The zero-signin test of the fallback gate, as a statement about pages. -/
theorem signin_count_zero_iff {α : Type} (tess : α → PageKind) (pages : List α) :
    ((pages.map (fun p => (p, tess p))).filter
        (fun pr => pr.2 = PageKind.signin)).length = 0 ↔
      ∀ p ∈ pages, tess p ≠ .signin := by
  rw [List.length_eq_zero, List.filter_eq_nil_iff]
  constructor
  · intro h p hp hsig
    exact h (p, tess p) (List.mem_map_of_mem _ hp) (by simp [hsig])
  · intro h pr hpr
    obtain ⟨p, hp, rfl⟩ := List.mem_map.mp hpr
    simp only [decide_eq_true_eq]
    exact h p hp

/-- When Tesseract finds no signin page, `process_pdf` replaces the results
with the batched LLM classifications and records one call per batch. -/
theorem process_pdf_classify_fallback {α : Type} (batchSize : Nat)
    (tess : α → PageKind) (llm : List α → Str) (pages : List α)
    (hzero : ∀ p ∈ pages, tess p ≠ .signin) :
    process_pdf_classify batchSize tess llm pages =
      (((chunkList batchSize pages).map
          (fun b => b.zip (classify_pages_batch (llm b) b.length))).flatten,
        chunkList batchSize pages) := by
  unfold process_pdf_classify
  simp only []
  rw [if_pos ((signin_count_zero_iff tess pages).mpr hzero)]

/-- Claim C6: the stage-2 LLM fallback of `process_pdf` runs iff the
Tesseract stage classifies zero pages of the document as `signin`; when it
does not run no LLM batch call is issued and the Tesseract results stand;
when it runs, the issued batch calls partition all pages in order into
non-empty batches of at most the configured size, the final results replace
the stage-1 results document-wide (they are independent of the Tesseract
classifications), and a 5-page document with batch size at least 5 triggers
exactly one batch call carrying all 5 pages. -/
theorem C6_llm_fallback_batching {α : Type} (batchSize : Nat)
    (hbs : 0 < batchSize) (tess : α → PageKind) (llm : List α → Str)
    (pages : List α) :
    ((∃ p ∈ pages, tess p = .signin) →
        process_pdf_classify batchSize tess llm pages =
          (pages.map (fun p => (p, tess p)), [])) ∧
    ((∀ p ∈ pages, tess p ≠ .signin) →
        (process_pdf_classify batchSize tess llm pages).2 =
            chunkList batchSize pages ∧
          (chunkList batchSize pages).flatten = pages ∧
          (∀ b ∈ chunkList batchSize pages, b ≠ [] ∧ b.length ≤ batchSize) ∧
          (∀ tess2 : α → PageKind, (∀ p ∈ pages, tess2 p ≠ .signin) →
            process_pdf_classify batchSize tess2 llm pages =
              process_pdf_classify batchSize tess llm pages)) ∧
    (pages.length = 5 → 5 ≤ batchSize → (∀ p ∈ pages, tess p ≠ .signin) →
        (process_pdf_classify batchSize tess llm pages).2 = [pages]) := by
  refine ⟨?_, ?_, ?_⟩
  · intro ⟨p, hp, hsig⟩
    unfold process_pdf_classify
    simp only []
    rw [if_neg (by
      rw [signin_count_zero_iff tess pages]
      push_neg
      exact ⟨p, hp, hsig⟩)]
  · intro hzero
    refine ⟨?_, chunkList_flatten batchSize hbs pages,
      chunkList_batch_sizes batchSize pages, ?_⟩
    · rw [process_pdf_classify_fallback batchSize tess llm pages hzero]
    · intro tess2 hzero2
      rw [process_pdf_classify_fallback batchSize tess llm pages hzero,
        process_pdf_classify_fallback batchSize tess2 llm pages hzero2]
  · intro hlen hge hzero
    rw [process_pdf_classify_fallback batchSize tess llm pages hzero]
    exact chunkList_single batchSize pages
      (by intro hnil; rw [hnil] at hlen; simp at hlen) (by omega)

/-- Witness for C6: a 5-page document all of whose pages Tesseract classifies
as `dinein` issues exactly one LLM batch call carrying all 5 pages. -/
theorem C6_llm_fallback_batching_witness :
    (process_pdf_classify 10 (fun _ : Nat => PageKind.dinein)
        (fun _ => "signin,dinein,signin,dinein,dinein".toList)
        [0, 1, 2, 3, 4]).2 = [[0, 1, 2, 3, 4]] :=
  (C6_llm_fallback_batching 10 (by omega) (fun _ : Nat => PageKind.dinein)
      (fun _ => "signin,dinein,signin,dinein,dinein".toList) [0, 1, 2, 3, 4]).2.2
    (by decide) (by omega) (fun p hp h => nomatch h)

/-- A result whose method is `no_match` or `no_mapping_data` carries the
Non-HCP default: raw credential, score 0. -/
theorem classify_credential_no_match {svc : ClassificationService} {cred : Str}
    (h : (classify_credential svc cred).method = .no_match ∨
      (classify_credential svc cred).method = .no_mapping_data) :
    classify_credential svc cred =
      ⟨"Non-HCP".toList, cred, 0, (classify_credential svc cred).method⟩ := by
  revert h
  unfold classify_credential
  simp only []
  split
  · intro _
    rfl
  · split
    · intro h
      rcases h with h | h <;> simp at h
    · split
      · intro h
        rcases h with h | h <;> simp at h
      · split
        · split
          · intro h
            rcases h with h | h <;> simp at h
          · intro _
            rfl
        · intro _
          rfl

/-- Deduplication keeps, for every input record, some record with the same
uppercased name. -/
theorem dedupGo_covers {l : List Record} {x : Record} (hx : x ∈ l) :
    ∀ seen, toUpperS x.Name ∉ seen →
      ∃ y ∈ dedupGo seen l, toUpperS y.Name = toUpperS x.Name := by
  induction l with
  | nil => simp at hx
  | cons a rest ih =>
    intro seen hseen
    simp only [dedupGo]
    split
    · rename_i hain
      rcases List.mem_cons.mp hx with rfl | hx2
      · exact absurd hain hseen
      · exact ih hx2 seen hseen
    · rcases List.mem_cons.mp hx with rfl | hx2
      · exact ⟨_, List.mem_cons_self _ _, rfl⟩
      · by_cases hk : toUpperS x.Name = toUpperS a.Name
        · exact ⟨a, List.mem_cons_self a _, hk.symm⟩
        · have hnot : toUpperS x.Name ∉ (toUpperS a.Name :: seen) := by
            intro hc
            rcases List.mem_cons.mp hc with hc | hc
            · exact hk hc
            · exact hseen hc
          obtain ⟨y, hy, hky⟩ := ih hx2 _ hnot
          exact ⟨y, List.mem_cons_of_mem _ hy, hky⟩

/-- An empty company scope: the example catalog has no rows for company 99. -/
def emptyScopeService : ClassificationService :=
  mkClassificationService exampleCatalog (some 99) 80 5

/-- Two body lines with the same name and two distinct unmatched
credentials. -/
def c8Text : Str := "- Jane Doe, ABC\n- Jane Doe, XYZ".toList

/-- Counterexample to C8: under an empty company scope both parsed records
are unmatched, yet only the first survives — the second parsed unmatched
record (`XYZ`) does not appear in the output at all, so not every unmatched
parsed record survives. -/
theorem C8_counterexample :
    (parse_ocr_results c8Text).length = 2 ∧
    ("Jane Doe".toList, "XYZ".toList) ∈ parse_ocr_results c8Text ∧
    (classify_credential emptyScopeService "XYZ".toList).classification =
      "Non-HCP".toList ∧
    (classify_ocr_results emptyScopeService c8Text).length = 1 ∧
    ∀ r ∈ classify_ocr_results emptyScopeService c8Text,
      r.Credential_OCR ≠ "XYZ".toList := by
  refine ⟨by decide, by decide, by decide, by decide, by decide⟩

/-- Claim C8 as amended: parsing is total and keeps exactly the lines
matching the pattern; a lookup against an empty scope yields Non-HCP with the
raw string and score 0; every output record whose method is a no-match
carries the Non-HCP default with the raw OCR credential unchanged and score
0; and no parsed name disappears — some record with the same
case-insensitive name survives — though a later duplicate of an earlier name
is removed by deduplication and a record matching the field-employee header
is reclassified by the override. -/
theorem C8_nonhcp_survival (svc : ClassificationService) (text : Str) :
    (∀ p ∈ parse_ocr_results text, ∃ line ∈ splitLines text,
        match_line line = some p) ∧
    (∀ cred, svc.mapping_df = [] →
        classify_credential svc cred =
          ⟨"Non-HCP".toList, cred, 0, .no_mapping_data⟩) ∧
    (∀ r ∈ classify_ocr_results svc text,
        (r.Match_Method = .no_match ∨ r.Match_Method = .no_mapping_data) →
        r.Classification = "Non-HCP".toList ∧
        r.Credential_Standardized = r.Credential_OCR ∧ r.Match_Score = 0) ∧
    (∀ p ∈ parse_ocr_results text,
        ∃ r ∈ classify_ocr_results svc text,
          toUpperS r.Name = toUpperS p.1) := by
  refine ⟨?_, ?_, ?_, ?_⟩
  · intro p hp
    simpa [parse_ocr_results, List.mem_filterMap] using hp
  · intro cred hempty
    unfold classify_credential
    rw [hempty]
    rfl
  · intro r hr hmeth
    rcases mem_classify_ocr_results hr with hov | ⟨p, hp, hrec⟩
    · rw [hov] at hmeth
      rcases hmeth with h | h <;> simp at h
    · have hm : (classify_credential svc p.2).method = .no_match ∨
          (classify_credential svc p.2).method = .no_mapping_data := by
        have : r.Match_Method = (classify_credential svc p.2).method := by
          rw [hrec]
          rfl
        rw [← this]
        exact hmeth
      have hfields := classify_credential_no_match hm
      refine ⟨?_, ?_, ?_⟩
      · have : r.Classification = (classify_credential svc p.2).classification := by
          rw [hrec]
          rfl
        rw [this, hfields]
      · have h1 : r.Credential_Standardized =
            (classify_credential svc p.2).standardized := by
          rw [hrec]
          rfl
        have h2 : r.Credential_OCR = p.2 := by
          rw [hrec]
          rfl
        rw [h1, h2, hfields]
      · have : r.Match_Score = (classify_credential svc p.2).score := by
          rw [hrec]
          rfl
        rw [this, hfields]
  · intro p hp
    have hne : (parse_ocr_results text).isEmpty = false := by
      rcases hparse : parse_ocr_results text with _ | ⟨q, qs⟩
      · rw [hparse] at hp
        simp at hp
      · rfl
    unfold classify_ocr_results
    simp only [hne, Bool.false_eq_true, if_false]
    rcases hfe : extract_field_employee_name text with _ | name
    · have hx : mkRecord svc p ∈ (parse_ocr_results text).map (mkRecord svc) :=
        List.mem_map_of_mem _ hp
      obtain ⟨y, hy, hky⟩ := dedupGo_covers hx [] (by simp)
      exact ⟨y, hy, by rw [hky]; rfl⟩
    · have hx : override_one (stripS (toUpperS name)) (mkRecord svc p) ∈
          override_field_employee ((parse_ocr_results text).map (mkRecord svc)) name := by
        exact List.mem_map_of_mem _ (List.mem_map_of_mem _ hp)
      obtain ⟨y, hy, hky⟩ := dedupGo_covers hx [] (by simp)
      refine ⟨y, hy, ?_⟩
      rw [hky]
      have : (override_one (stripS (toUpperS name)) (mkRecord svc p)).Name = p.1 := by
        unfold override_one
        split
        · rfl
        · rfl
      rw [this]

/-- Witness for the amended C8: under the empty company-99 scope the
unmatched credential `XYZ` classifies to Non-HCP with the raw string and
score 0, and some record named Jane Doe survives in the output. -/
theorem C8_nonhcp_survival_witness :
    classify_credential emptyScopeService "XYZ".toList =
      ⟨"Non-HCP".toList, "XYZ".toList, 0, .no_mapping_data⟩ ∧
    ∃ r ∈ classify_ocr_results emptyScopeService c8Text,
      toUpperS r.Name = toUpperS "Jane Doe".toList :=
  ⟨(C8_nonhcp_survival emptyScopeService c8Text).2.1 "XYZ".toList (by decide),
   (C8_nonhcp_survival emptyScopeService c8Text).2.2.2
     ("Jane Doe".toList, "ABC".toList) (by decide)⟩

/-- Claim C9: when the jurisdiction query returns zero valid HCP credential
ids for the venue state and company, the page is classified under the plain
company scope — the state-filter branch is skipped, no error escapes, and the
mapping table used is exactly the company-scoped load. -/
theorem C9_empty_jurisdiction_fallback (full : List MappingRow) (company : Int)
    (vs : Str) (db : List StateCredRow)
    (hempty : get_state_specific_credential_ids db vs company = []) :
    process_single_signin_page_scope full company (some vs) db =
      load_mapping full (some company) := by
  unfold process_single_signin_page_scope
  simp only []
  unfold state_filter_step
  rw [hempty]
  rfl

/-- A credential table whose only state row is for Texas. -/
def dbTexasOnly : List StateCredRow := [⟨7, 1, "Texas".toList, "HCP".toList⟩]

/-- Witness for C9: with a venue state of Ohio the Texas-only table yields no
ids and classification proceeds under the company-only scope. -/
theorem C9_empty_jurisdiction_fallback_witness :
    process_single_signin_page_scope exampleCatalog 1 (some "ohio".toList)
        dbTexasOnly = load_mapping exampleCatalog (some 1) :=
  C9_empty_jurisdiction_fallback exampleCatalog 1 "ohio".toList dbTexasOnly
    (by decide)

/-- Claim C10: `ClassificationService` defines no
`filter_by_state_credentials` method, so with a non-empty id list the
state-filtering call raises `AttributeError`; the surrounding handler catches
it and the mapping table stays exactly as loaded for the company — the
jurisdiction filter never restricts credential matching. -/
theorem C10_state_filter_never_applies (full : List MappingRow) (company : Int)
    (vs : Str) (db : List StateCredRow)
    (hne : get_state_specific_credential_ids db vs company ≠ []) :
    ("filter_by_state_credentials" ∉ classificationServiceMethods) ∧
    invoke_filter_by_state_credentials (load_mapping full (some company)) =
      .error .attributeError ∧
    process_single_signin_page_scope full company (some vs) db =
      load_mapping full (some company) := by
  refine ⟨by decide, ?_, ?_⟩
  · unfold invoke_filter_by_state_credentials
    rw [if_neg (by decide)]
  · have hfalse : (get_state_specific_credential_ids db vs company).isEmpty = false := by
      rcases h : get_state_specific_credential_ids db vs company with _ | ⟨a, l⟩
      · exact absurd h hne
      · rfl
    unfold process_single_signin_page_scope
    simp only []
    unfold state_filter_step
    simp only [hfalse, Bool.false_eq_true, if_false]
    unfold invoke_filter_by_state_credentials
    rw [if_neg (by decide)]
    rfl

/-- A credential table with a federal HCP row for company 1. -/
def dbFederal : List StateCredRow := [⟨7, 1, "federal".toList, "HCP".toList⟩]

/-- Witness for C10: the federal row yields a non-empty id list, yet the
resulting scope is still exactly the company-scoped mapping. -/
theorem C10_state_filter_never_applies_witness :
    ("filter_by_state_credentials" ∉ classificationServiceMethods) ∧
    invoke_filter_by_state_credentials (load_mapping exampleCatalog (some 1)) =
      .error .attributeError ∧
    process_single_signin_page_scope exampleCatalog 1 (some "ohio".toList)
        dbFederal = load_mapping exampleCatalog (some 1) :=
  C10_state_filter_never_applies exampleCatalog 1 "ohio".toList dbFederal
    (by decide)

end OCR
